import Mathlib

/-!
Shallow embedding of the deal-curator bot (`src/bot.py`).

Strings are Lean `String`s; Python `float` values arising from price and
rating parsing are modelled as exact rationals (`ℚ`); missing dictionary
keys (or explicit `None` values) are modelled by `Option`.  The provider,
the messaging channel and the random shuffle are oracles passed in as
functions.
-/

namespace Bot

/-! ### Configuration constants (from the top of `bot.py`) -/

def POSTED_DEALS_FILE : String := "posted_deals.txt"

def CHECK_INTERVAL_SECONDS : ℕ := 1

def POSTING_WINDOW_SECONDS : ℕ := 3600

def MINIMUM_DISCOUNT_PERCENT : ℤ := 10

def MINIMUM_STAR_RATING : ℚ := 0

def KEYWORD_BLACKLIST : List String :=
  ["egg", "eggs", "vegetable", "paneer", "cauliflower", "marigold",
   "banana", "gourd", "brinjal", "butter", "farm fresh", "pantry"]

structure Category where
  name : String
  id : String
deriving DecidableEq, Repr

def SPECIFIC_CATEGORIES_TO_FETCH : List Category :=
  [⟨"Fashion", "2478868012"⟩,
   ⟨"Home_Kitchen", "976442031"⟩,
   ⟨"Electronics", "1389432031"⟩,
   ⟨"Health_PC", "1389436031"⟩,
   ⟨"Computers", "1389433031"⟩,
   ⟨"Mobiles", "1389437031"⟩]

/-! ### String helpers -/

/-- `startsWithChars n l` : the char list `n` is a prefix of `l`
(Python `str.startswith` on the underlying characters). -/
def startsWithChars : List Char → List Char → Bool
  | [], _ => true
  | _ :: _, [] => false
  | a :: as, b :: bs => a == b && startsWithChars as bs

/-- Substring occurrence on char lists: models Python `needle in hay`. -/
def charsContain (n : List Char) : List Char → Bool
  | [] => n.isEmpty
  | c :: rest => startsWithChars n (c :: rest) || charsContain n rest

/-- Python `needle in hay` for strings. -/
def strContains (hay needle : String) : Bool :=
  charsContain needle.data hay.data

/-- `re.sub(r'[^\d.]', '', s)` : keep only decimal digits and dots. -/
def stripNonNumeric (s : String) : String :=
  String.mk (s.data.filter (fun c => c.isDigit || c == '.'))

/-- Value of a list of decimal digit characters read as a natural number. -/
def digitsToNat (l : List Char) : ℕ :=
  l.foldl (fun n c => 10 * n + (c.toNat - '0'.toNat)) 0

/-- Python `float()` on an unsigned string of digits and dots: defined
(`some`) iff the string consists of digits and at most one dot and has at
least one digit; the value is exact (ℚ instead of IEEE double). -/
def parseFloatCore (cs : List Char) : Option ℚ :=
  if cs.all (fun c => c.isDigit || c == '.') && cs.count '.' ≤ 1
      && cs.any (fun c => c.isDigit) then
    let ip := cs.takeWhile (fun c => c ≠ '.')
    let fp := (cs.dropWhile (fun c => c ≠ '.')).drop 1
    some ((digitsToNat ip : ℚ) + (digitsToNat fp : ℚ) / 10 ^ fp.length)
  else none

/-- Python `float()` on a general string, with an optional sign.
`none` models a raised `ValueError`. -/
def pyFloat (s : String) : Option ℚ :=
  match s.data with
  | '-' :: rest => (parseFloatCore rest).map (fun q => -q)
  | '+' :: rest => parseFloatCore rest
  | cs => parseFloatCore cs

/-- Python 3 `round` to an integer: round half to even. -/
def pyRound (q : ℚ) : ℤ :=
  let f := ⌊q⌋
  if q - f < 1 / 2 then f
  else if q - f > 1 / 2 then f + 1
  else if f % 2 = 0 then f else f + 1

/-! ### Candidate records and the filter pipeline (`apply_filters`) -/

/-- A raw provider product record: the dictionary fields `apply_filters`
reads.  `none` models a missing key (or an explicit `null`). -/
structure ProductData where
  product_title : Option String := none
  product_star_rating : Option String := none
  product_price : Option String := none
  product_original_price : Option String := none
  product_photo : Option String := none
  asin : Option String := none
  product_url : Option String := none
deriving DecidableEq, Repr

/-- A standardized deal as built at the end of `apply_filters`. -/
structure Deal where
  product_id : String
  deal_title : String
  deal_photo : String
  product_url : String
  deal_price : ℚ
  original_price : ℚ
  star_rating : ℚ
  category_name : String
  source : String := "Amazon"
deriving DecidableEq, Repr

/-- Python `str.lower()` (ASCII case folding, enough for the data here). -/
def pyLower (s : String) : String :=
  String.mk (s.data.map Char.toLower)

/-- Filter step 1b: some blacklisted keyword occurs in the lowered title. -/
def blacklistHit (title : String) : Bool :=
  KEYWORD_BLACKLIST.any (fun word => strContains (pyLower title) word)

/-- The rating value `float(star_rating_str) if star_rating_str else 0`
computed from `product_data.get('product_star_rating', '0')`:
`some r` when no exception is raised, `none` when `float` raises
(in which case the code falls back to `0.0` and skips the rating check). -/
def ratingValue (s : Option String) : Option ℚ :=
  let star_rating_str := s.getD "0"
  if star_rating_str = "" then some 0 else pyFloat star_rating_str

/-- Filter step 2 as a predicate: the candidate is rejected by the rating
check exactly when the rating parses and is below the minimum (a parse
exception falls back to `0.0` without rejecting). -/
def ratingStageRejects (s : Option String) : Bool :=
  match ratingValue s with
  | some star_rating => decide (star_rating < MINIMUM_STAR_RATING)
  | none => false

/-- `float(re.sub(r'[^\d.]', '', price_str)) if price_str else 0` :
a missing or empty price yields `0` (no exception); otherwise the
stripped string is parsed, `none` modelling a raised `ValueError`. -/
def parsePrice (s : Option String) : Option ℚ :=
  match s with
  | none => some 0
  | some str => if str = "" then some 0 else pyFloat (stripNonNumeric str)

/-- Filter step 4 quantity: `round(((original - deal) / original) * 100)`. -/
def discountOf (original_price deal_price : ℚ) : ℤ :=
  pyRound (((original_price - deal_price) / original_price) * 100)

/-- Filter step 4 as a predicate: rejected iff the computed discount is
below `MINIMUM_DISCOUNT_PERCENT`. -/
def discountRejects (original_price deal_price : ℚ) : Bool :=
  discountOf original_price deal_price < MINIMUM_DISCOUNT_PERCENT

/-- Filter step 3 as a predicate on the two raw price fields: rejected
when a price fails to parse (exception) or when
`not original_price or not deal_price or deal_price >= original_price`. -/
def priceStageRejects (price_str original_price_str : Option String) : Bool :=
  match parsePrice price_str, parsePrice original_price_str with
  | some deal_price, some original_price =>
      decide (original_price = 0 ∨ deal_price = 0 ∨ deal_price ≥ original_price)
  | _, _ => true

/-- The tail of `apply_filters` after the title and rating checks:
price parsing and comparison, discount check, and the presence check on
`asin`, `product_photo` and `product_url`. -/
def afterRating (p : ProductData) (title category_name : String)
    (star_rating : ℚ) : Option Deal :=
  match parsePrice p.product_price, parsePrice p.product_original_price with
  | some deal_price, some original_price =>
      if original_price = 0 ∨ deal_price = 0 ∨ deal_price ≥ original_price then none
      else if discountRejects original_price deal_price then none
      else
        match p.asin, p.product_photo, p.product_url with
        | some asin, some image_url, some product_url =>
            if asin = "" ∨ image_url = "" ∨ product_url = "" then none
            else some
              { product_id := asin, deal_title := title, deal_photo := image_url,
                product_url := product_url, deal_price := deal_price,
                original_price := original_price, star_rating := star_rating,
                category_name := category_name }
        | _, _, _ => none
  | _, _ => none

/-- `apply_filters(product_data, category_name)`: `none` is Python's
`return None` (candidate rejected). -/
def apply_filters (p : ProductData) (category_name : String) : Option Deal :=
  match p.product_title with
  | none => none
  | some title =>
      if title = "" then none
      else if blacklistHit title then none
      else if ratingStageRejects p.product_star_rating then none
      else afterRating p title category_name
        ((ratingValue p.product_star_rating).getD 0)

/-! ### Provider calls (`make_api_request`, `parse_api_response`,
`get_amazon_deals`)

A request with a given key is an oracle `res : String → Option D`
(`none` = the request raised / returned a bad status). -/

/-- The `for i in range(len(API_KEYS))` loop of `make_api_request`: at
iteration `i` (with `remaining` iterations left) try key
`(curIdx + i) % len`, returning its data and index on success, otherwise
move to the next iteration. -/
def tryKeysLoop {D : Type} (keys : List String) (res : String → Option D)
    (curIdx : ℕ) (i : ℕ) : ℕ → Option (D × ℕ)
  | 0 => none
  | remaining + 1 =>
      match res (keys.getD ((curIdx + i) % keys.length) "") with
      | some data => some (data, (curIdx + i) % keys.length)
      | none => tryKeysLoop keys res curIdx (i + 1) remaining

/-- `make_api_request`: returns the response (or `none` after all keys
failed) together with the updated `current_api_key_index`.  The per-key
oracle here collapses every failing attempt into `none`;
`make_api_request_full` below refines this by distinguishing exceptions
raised before the assignment `current_api_key_index = key_index` from
those raised by `response.json()` after it
(`make_api_request_eq_full` relates the two models). -/
def make_api_request {D : Type} (keys : List String) (curIdx : ℕ)
    (res : String → Option D) : Option D × ℕ :=
  if keys.isEmpty then (none, curIdx)
  else
    match tryKeysLoop keys res curIdx 0 keys.length with
    | some (data, key_index) => (some data, key_index)
    | none => (none, curIdx)

/-- Outcome of one keyed request attempt inside `make_api_request`:
`httpFail` models an exception raised by `requests.get` or
`raise_for_status()` (before the index assignment), `jsonFail` an
exception raised by `response.json()` (after the index was already
assigned), and `ok data` a successful return. -/
inductive KeyOutcome (D : Type) : Type where
  | httpFail : KeyOutcome D
  | jsonFail : KeyOutcome D
  | ok : D → KeyOutcome D
deriving DecidableEq, Repr

/-- The key-rotation loop with the mutation of the global
`current_api_key_index` made explicit: `cur` is the global read at the
top of each iteration (`key_index = (current_api_key_index + i) % len`),
a `jsonFail` attempt updates it before its exception is caught, and on
exhaustion the pair `(none, cur)` carries the global as the loop left
it. -/
def tryKeysLoopFull {D : Type} (keys : List String)
    (res : String → KeyOutcome D) (cur : ℕ) (i : ℕ) : ℕ → Option D × ℕ
  | 0 => (none, cur)
  | remaining + 1 =>
      match res (keys.getD ((cur + i) % keys.length) "") with
      | KeyOutcome.ok data => (some data, (cur + i) % keys.length)
      | KeyOutcome.httpFail => tryKeysLoopFull keys res cur (i + 1) remaining
      | KeyOutcome.jsonFail =>
          tryKeysLoopFull keys res ((cur + i) % keys.length) (i + 1) remaining

/-- `make_api_request` with the index side effect modelled in full. -/
def make_api_request_full {D : Type} (keys : List String) (curIdx : ℕ)
    (res : String → KeyOutcome D) : Option D × ℕ :=
  if keys.isEmpty then (none, curIdx)
  else tryKeysLoopFull keys res curIdx 0 keys.length

/-- A decoded provider response body: `data.products` and `data.deals`
(each `[]` when the key is absent). -/
structure ApiData where
  products : List ProductData := []
  deals : List ProductData := []

/-- `parse_api_response`: pick `data.products or data.deals`, then keep
the candidates surviving `apply_filters`. -/
def parse_api_response (api_data : ApiData) (category_name : String) : List Deal :=
  let products_list :=
    if api_data.products.isEmpty then api_data.deals else api_data.products
  products_list.filterMap (fun p => apply_filters p category_name)

/-- State threaded by `get_amazon_deals` across categories: the merged
deal list, the ids found this cycle, and the credential rotation index. -/
structure FetchState where
  all_deals : List Deal
  found_product_ids : Finset String
  idx : ℕ

/-- The inner merge loop of `get_amazon_deals`: append each parsed deal
whose id is non-empty and not yet seen this cycle. -/
def addParsedDeals (acc : List Deal × Finset String) (parsed : List Deal) :
    List Deal × Finset String :=
  parsed.foldl
    (fun acc deal =>
      if deal.product_id ≠ "" ∧ deal.product_id ∉ acc.2 then
        (acc.1 ++ [deal], insert deal.product_id acc.2)
      else acc)
    acc

/-- One category iteration of `get_amazon_deals`. -/
def fetchStep (keys : List String) (res : Category → String → Option ApiData)
    (st : FetchState) (category : Category) : FetchState :=
  match make_api_request keys st.idx (res category) with
  | (some response_data, idx') =>
      let parsed := parse_api_response response_data category.name
      let acc := addParsedDeals (st.all_deals, st.found_product_ids) parsed
      ⟨acc.1, acc.2, idx'⟩
  | (none, idx') => ⟨st.all_deals, st.found_product_ids, idx'⟩

/-- The category loop of `get_amazon_deals` over a category list. -/
def fetchCategories (keys : List String)
    (res : Category → String → Option ApiData) (cats : List Category)
    (st : FetchState) : FetchState :=
  cats.foldl (fetchStep keys res) st

/-- `get_amazon_deals()`: fold over the configured categories from an
empty merge state, returning the merged deals and the final rotation
index. -/
def get_amazon_deals (keys : List String)
    (res : Category → String → Option ApiData) (idx0 : ℕ) : List Deal × ℕ :=
  let final := fetchCategories keys res SPECIFIC_CATEGORIES_TO_FETCH ⟨[], ∅, idx0⟩
  (final.all_deals, final.idx)

/-! ### Durable identifier store (`load_posted_deals` / `save_posted_deal`)

The file is modelled as its content, a `String`; the in-memory
`posted_product_ids` set as a `Finset String`. -/

/-- Python whitespace characters stripped by `str.strip()` (ASCII part). -/
def isPyWhitespace (c : Char) : Bool :=
  c == ' ' || c == '\t' || c == '\n' || c == '\r' || c == '\x0b' || c == '\x0c'

/-- `str.strip()` on the character list. -/
def pyStrip (l : List Char) : List Char :=
  ((l.dropWhile isPyWhitespace).reverse.dropWhile isPyWhitespace).reverse

/-- Python text-file line iteration (`for line in f`): each yielded line
keeps its trailing newline; a final fragment without a newline is yielded
iff it is non-empty. -/
def pyLinesAux (acc : List Char) : List Char → List (List Char)
  | [] => if acc = [] then [] else [acc.reverse]
  | c :: rest =>
      if c = '\n' then (acc.reverse ++ ['\n']) :: pyLinesAux [] rest
      else pyLinesAux (c :: acc) rest

def pyLines (content : String) : List (List Char) :=
  pyLinesAux [] content.data

/-- `load_posted_deals()`: update the set with the stripped lines of the
file.  (The file existing with content `content`; the exception path only
fires on I/O errors, outside the model.) -/
def load_posted_deals (content : String) (posted_product_ids : Finset String) :
    Finset String :=
  posted_product_ids ∪
    ((pyLines content).map (fun line => String.mk (pyStrip line))).toFinset

/-- `save_posted_deal(product_id)`: append `product_id + '\n'`. -/
def save_posted_deal (content : String) (product_id : String) : String :=
  content ++ product_id ++ "\n"

/-! ### The main loop (`main_bot_loop`), one cycle at a time

The provider output, the shuffle and the publish outcomes are oracles. -/

/-- The mutable state the loop threads: the in-memory announced-ID set and
the content of the durable store file. -/
structure BotState where
  posted : Finset String
  store : String

/-- Environment of one cycle: what `get_amazon_deals()` returned, how
`random.shuffle` permuted the new deals, and which publishes succeed. -/
structure CycleOracle where
  allDeals : List Deal
  shuffle : List Deal → List Deal
  pubOk : Deal → Bool

/-- `new_deals = [d for d in all_deals if d.get('product_id') not in posted_product_ids]` -/
def newDeals (all_deals : List Deal) (posted : Finset String) : List Deal :=
  all_deals.filter (fun d => d.product_id ∉ posted)

/-- `delay = max(1, POSTING_WINDOW_SECONDS / len(new_deals))` (exact). -/
def perItemDelay (n : ℕ) : ℚ :=
  max 1 ((POSTING_WINDOW_SECONDS : ℚ) / n)

/-- One iteration of the pacing loop body (without the sleep): publish the
deal; on success add its id to the set and append it to the store. -/
def pacingStep (pubOk : Deal → Bool) (st : BotState) (deal : Deal) : BotState :=
  if pubOk deal then
    { posted := insert deal.product_id st.posted,
      store := save_posted_deal st.store deal.product_id }
  else st

/-- The deals the cycle iterates over: the shuffled new deals. -/
def cycleSelected (c : CycleOracle) (posted : Finset String) : List Deal :=
  c.shuffle (newDeals c.allDeals posted)

/-- One full cycle of `main_bot_loop` acting on the state. -/
def runCycle (c : CycleOracle) (st : BotState) : BotState :=
  (cycleSelected c st.posted).foldl (pacingStep c.pubOk) st

/-- The identifiers successfully published during one cycle, in order. -/
def cyclePublished (c : CycleOracle) (posted : Finset String) : List String :=
  ((cycleSelected c posted).filter c.pubOk).map Deal.product_id

/-- The sleeps performed during one cycle: one `time.sleep(delay)` per
iterated deal, regardless of publish success. -/
def cycleSleeps (c : CycleOracle) (posted : Finset String) : List ℚ :=
  (cycleSelected c posted).map
    (fun _ => perItemDelay (newDeals c.allDeals posted).length)

/-- Several cycles of the endless loop. -/
def runCycles (st : BotState) : List CycleOracle → BotState
  | [] => st
  | c :: cs => runCycles (runCycle c st) cs

/-- All identifiers successfully published over a run, in order. -/
def runPublished (st : BotState) : List CycleOracle → List String
  | [] => []
  | c :: cs => cyclePublished c st.posted ++ runPublished (runCycle c st) cs

/-! ### Concrete sample inputs used by the witnesses -/

def sampleDeal : Deal :=
  { product_id := "A1", deal_title := "Wireless Mouse", deal_photo := "img",
    product_url := "http", deal_price := 850, original_price := 1000,
    star_rating := 4, category_name := "Electronics" }

def sampleCycle : CycleOracle :=
  { allDeals := [sampleDeal], shuffle := fun l => l, pubOk := fun _ => true }

def sampleUnrated : ProductData :=
  { product_title := some "Wireless Mouse", product_star_rating := some "abc",
    product_price := some "850", product_original_price := some "1000",
    product_photo := some "img", asin := some "A1", product_url := some "http" }

def emptyState : BotState := { posted := ∅, store := "" }

def mixedFailRes : String → KeyOutcome ℕ :=
  fun key => if key = "k2" then KeyOutcome.jsonFail else KeyOutcome.httpFail

def okRes : String → KeyOutcome ℕ :=
  fun key => if key = "k2" then KeyOutcome.ok 7 else KeyOutcome.httpFail

/-!
## Theorems
-/

/-- Unfolding of `apply_filters` once the title is known present. -/
lemma apply_filters_some_title (p : ProductData) (category_name title : String)
    (ht : p.product_title = some title) :
    apply_filters p category_name =
      if title = "" then none
      else if blacklistHit title then none
      else if ratingStageRejects p.product_star_rating then none
      else afterRating p title category_name
        ((ratingValue p.product_star_rating).getD 0) := by
  unfold apply_filters
  rw [ht]

/-- Step 3 rejection propagates to `afterRating`: whatever the other
fields, a candidate whose price stage rejects is rejected. -/
lemma afterRating_none_of_priceStageRejects (p : ProductData)
    (title category_name : String) (star_rating : ℚ)
    (h : priceStageRejects p.product_price p.product_original_price = true) :
    afterRating p title category_name star_rating = none := by
  revert h
  unfold afterRating priceStageRejects
  rcases parsePrice p.product_price with _ | dp <;>
    rcases parsePrice p.product_original_price with _ | op <;> intro h
  · rfl
  · rfl
  · rfl
  · simp only [decide_eq_true_eq] at h
    exact if_pos h

lemma apply_filters_none_of_priceStageRejects (p : ProductData)
    (category_name : String)
    (h : priceStageRejects p.product_price p.product_original_price = true) :
    apply_filters p category_name = none := by
  rcases ht : p.product_title with _ | title
  · unfold apply_filters
    rw [ht]
  · rw [apply_filters_some_title p category_name title ht]
    split
    · rfl
    · split
      · rfl
      · split
        · rfl
        · exact afterRating_none_of_priceStageRejects p title category_name _ h

/-- C3 counterexample: prices "0" and "5" are both present and numeric
and the current price (0) is strictly below the original (5), yet
filter step 3 rejects (Python's zero-price falsiness check). -/
theorem C3_counterexample :
    parsePrice (some "0") = some 0 ∧ parsePrice (some "5") = some 5 ∧
      ((0 : ℚ) < 5) ∧ priceStageRejects (some "0") (some "5") = true := by
  refine ⟨by with_unfolding_all rfl, by with_unfolding_all rfl, by norm_num,
    by with_unfolding_all rfl⟩

/-- C3 (amended): filter step 3 rejects a candidate iff a price is
missing or not numeric after stripping (parse exception), or a parsed
price equals zero, or the parsed current price is not strictly less than
the parsed original price; and a candidate rejected by step 3 is
rejected by `apply_filters` for any other field values. -/
theorem C3_price_stage (price_str original_price_str : Option String) :
    (priceStageRejects price_str original_price_str = true ↔
      parsePrice price_str = none ∨ parsePrice original_price_str = none ∨
        ∃ deal_price original_price,
          parsePrice price_str = some deal_price ∧
          parsePrice original_price_str = some original_price ∧
          (original_price = 0 ∨ deal_price = 0 ∨ original_price ≤ deal_price)) ∧
    (∀ (p : ProductData) (category_name : String),
      p.product_price = price_str →
      p.product_original_price = original_price_str →
      priceStageRejects price_str original_price_str = true →
      apply_filters p category_name = none) := by
  constructor
  · unfold priceStageRejects
    rcases h1 : parsePrice price_str with _ | dp <;>
      rcases h2 : parsePrice original_price_str with _ | op <;> simp [h1, h2]
  · intro p category_name hp ho hrej
    apply apply_filters_none_of_priceStageRejects
    rw [hp, ho]; exact hrej

/-- C3 witness for the amended statement, at the counterexample input. -/
theorem C3_price_stage_witness :
    priceStageRejects (some "0") (some "5") = true ↔
      parsePrice (some "0") = none ∨ parsePrice (some "5") = none ∨
        ∃ deal_price original_price,
          parsePrice (some "0") = some deal_price ∧
          parsePrice (some "5") = some original_price ∧
          (original_price = 0 ∨ deal_price = 0 ∨ original_price ≤ deal_price) :=
  (C3_price_stage (some "0") (some "5")).1

/-- C2: for present, numeric prices with current < original, a computed
discount exactly at `MINIMUM_DISCOUNT_PERCENT` is not rejected by the
discount filter, while one percentage point below is rejected. -/
theorem C2_discount_boundary (price_str original_price_str : String)
    (deal_price original_price : ℚ)
    (hd : parsePrice (some price_str) = some deal_price)
    (ho : parsePrice (some original_price_str) = some original_price)
    (hlt : deal_price < original_price) :
    (discountOf original_price deal_price = MINIMUM_DISCOUNT_PERCENT →
      discountRejects original_price deal_price = false) ∧
    (discountOf original_price deal_price = MINIMUM_DISCOUNT_PERCENT - 1 →
      discountRejects original_price deal_price = true) := by
  constructor
  · intro h
    simp only [discountRejects, h, MINIMUM_DISCOUNT_PERCENT,
      decide_eq_false_iff_not]
    omega
  · intro h
    simp only [discountRejects, h, MINIMUM_DISCOUNT_PERCENT, decide_eq_true_eq]
    omega

/-- C2 witness: prices 900/1000 give discount exactly 10 (accepted);
prices 910/1000 give discount 9 (rejected). -/
theorem C2_discount_boundary_witness :
    discountOf 1000 900 = MINIMUM_DISCOUNT_PERCENT ∧
      discountRejects 1000 900 = false ∧
    discountOf 1000 910 = MINIMUM_DISCOUNT_PERCENT - 1 ∧
      discountRejects 1000 910 = true :=
  ⟨by with_unfolding_all rfl,
   (C2_discount_boundary "900" "1000" 900 1000 (by with_unfolding_all rfl)
      (by with_unfolding_all rfl) (by norm_num)).1 (by with_unfolding_all rfl),
   by with_unfolding_all rfl,
   (C2_discount_boundary "910" "1000" 910 1000 (by with_unfolding_all rfl)
      (by with_unfolding_all rfl) (by norm_num)).2 (by with_unfolding_all rfl)⟩

/-- C7: once the title passes the blacklist, a missing or unparseable
rating never causes rejection by the rating filter (the pipeline
proceeds with the default value), and a parseable rating is rejected by
the rating filter exactly when it is below `MINIMUM_STAR_RATING`. -/
theorem C7_rating_default (p : ProductData) (category_name title : String)
    (ht : p.product_title = some title) (hne : title ≠ "")
    (hbl : blacklistHit title = false) :
    ((p.product_star_rating = none ∨ ratingValue p.product_star_rating = none) →
       ratingStageRejects p.product_star_rating = false ∧
       apply_filters p category_name =
         afterRating p title category_name
           ((ratingValue p.product_star_rating).getD 0)) ∧
    (∀ star_rating, ratingValue p.product_star_rating = some star_rating →
       ((ratingStageRejects p.product_star_rating = true ↔
           star_rating < MINIMUM_STAR_RATING) ∧
        (star_rating < MINIMUM_STAR_RATING →
           apply_filters p category_name = none))) := by
  have happ : ∀ h : ratingStageRejects p.product_star_rating = false,
      apply_filters p category_name =
        afterRating p title category_name
          ((ratingValue p.product_star_rating).getD 0) := by
    intro h
    rw [apply_filters_some_title p category_name title ht]
    simp [hne, hbl, h]
  have happn : ∀ h : ratingStageRejects p.product_star_rating = true,
      apply_filters p category_name = none := by
    intro h
    rw [apply_filters_some_title p category_name title ht]
    simp [hne, hbl, h]
  constructor
  · rintro (hmiss | hval)
    · have : ratingStageRejects p.product_star_rating = false := by
        rw [hmiss]; with_unfolding_all rfl
      exact ⟨this, happ this⟩
    · have : ratingStageRejects p.product_star_rating = false := by
        unfold ratingStageRejects
        rw [hval]
      exact ⟨this, happ this⟩
  · intro r hr
    have hiff : ratingStageRejects p.product_star_rating = true ↔
        r < MINIMUM_STAR_RATING := by
      unfold ratingStageRejects
      rw [hr]
      simp
    refine ⟨hiff, fun hlt => happn (hiff.mpr hlt)⟩

/-- C7 witness: a candidate with unparseable rating "abc" is not
rejected by the rating filter and continues down the pipeline. -/
theorem C7_rating_default_witness :
    ratingStageRejects sampleUnrated.product_star_rating = false ∧
    apply_filters sampleUnrated "Electronics" =
      afterRating sampleUnrated "Wireless Mouse" "Electronics"
        ((ratingValue sampleUnrated.product_star_rating).getD 0) :=
  (C7_rating_default sampleUnrated "Electronics" "Wireless Mouse" rfl
      (by decide) (by decide)).1 (Or.inr (by with_unfolding_all rfl))

lemma sum_map_const {α : Type} (l : List α) (q : ℚ) :
    (l.map (fun _ => q)).sum = l.length * q := by
  induction l with
  | nil => simp
  | cons a t ih => simp [ih]; ring

/-- C4: in a cycle with at least one new deal, every per-item sleep is
the same `perItemDelay`, their total is `N × max(1, W/N)`, for `N = 1`
the delay is the whole window, and for `N ≥ W` it floors at 1 second. -/
theorem C4_pacing (c : CycleOracle) (posted : Finset String)
    (hperm : ∀ l, (c.shuffle l).Perm l)
    (hN : 1 ≤ (newDeals c.allDeals posted).length) :
    (cycleSleeps c posted).sum =
      ((newDeals c.allDeals posted).length : ℚ) *
        max 1 ((POSTING_WINDOW_SECONDS : ℚ) /
          (newDeals c.allDeals posted).length) ∧
    (∀ q ∈ cycleSleeps c posted,
        q = perItemDelay (newDeals c.allDeals posted).length) ∧
    ((newDeals c.allDeals posted).length = 1 →
        perItemDelay (newDeals c.allDeals posted).length =
          (POSTING_WINDOW_SECONDS : ℚ)) ∧
    (POSTING_WINDOW_SECONDS ≤ (newDeals c.allDeals posted).length →
        perItemDelay (newDeals c.allDeals posted).length = 1) := by
  refine ⟨?_, ?_, ?_, ?_⟩
  · unfold cycleSleeps
    rw [sum_map_const]
    have hlen : (cycleSelected c posted).length =
        (newDeals c.allDeals posted).length :=
      (hperm _).length_eq
    rw [hlen]
    rfl
  · intro q hq
    unfold cycleSleeps at hq
    rcases List.mem_map.1 hq with ⟨d, _, hd⟩
    exact hd.symm
  · intro h1
    rw [h1]
    unfold perItemDelay POSTING_WINDOW_SECONDS
    norm_num
  · intro hge
    have hN0 : (0 : ℚ) < (newDeals c.allDeals posted).length := by
      exact_mod_cast Nat.lt_of_lt_of_le Nat.zero_lt_one hN
    have hle : (POSTING_WINDOW_SECONDS : ℚ) /
        (newDeals c.allDeals posted).length ≤ 1 := by
      rw [div_le_one hN0]
      exact_mod_cast hge
    exact max_eq_left hle

/-- C4 witness: a single accepted deal is paced over the whole window. -/
theorem C4_pacing_witness :
    (cycleSleeps sampleCycle ∅).sum =
      ((newDeals sampleCycle.allDeals ∅).length : ℚ) *
        max 1 ((POSTING_WINDOW_SECONDS : ℚ) /
          (newDeals sampleCycle.allDeals ∅).length) :=
  (C4_pacing sampleCycle ∅ (fun l => List.Perm.refl l) (by decide)).1

/-- C5: one pacing iteration publishes the deal once; on success the set
and the store both gain the identifier before the next deal, on failure
the state is untouched; the loop then continues with the remaining
deals, and one sleep happens per deal whatever the publish outcome
(`cycleSleeps` does not depend on the publish oracle at all). -/
theorem C5_per_deal (pubOk : Deal → Bool) (st : BotState) (deal : Deal)
    (rest : List Deal) (c : CycleOracle) (posted : Finset String) :
    (pubOk deal = true →
       pacingStep pubOk st deal =
         { posted := insert deal.product_id st.posted,
           store := save_posted_deal st.store deal.product_id }) ∧
    (pubOk deal = false → pacingStep pubOk st deal = st) ∧
    ((deal :: rest).foldl (pacingStep pubOk) st =
       rest.foldl (pacingStep pubOk) (pacingStep pubOk st deal)) ∧
    (cycleSleeps c posted).length = (cycleSelected c posted).length := by
  refine ⟨fun h => by simp [pacingStep, h], fun h => by simp [pacingStep, h],
    rfl, by simp [cycleSleeps]⟩

/-- C5 witness: a successful publish inserts the id and appends it. -/
theorem C5_per_deal_witness :
    pacingStep sampleCycle.pubOk emptyState sampleDeal =
      { posted := insert sampleDeal.product_id emptyState.posted,
        store := save_posted_deal emptyState.store sampleDeal.product_id } :=
  (C5_per_deal sampleCycle.pubOk emptyState sampleDeal [] sampleCycle ∅).1 rfl

lemma posted_subset_foldl (pubOk : Deal → Bool) (l : List Deal) (st : BotState) :
    st.posted ⊆ (l.foldl (pacingStep pubOk) st).posted := by
  induction l generalizing st with
  | nil => exact subset_rfl
  | cons d t ih =>
    simp only [List.foldl_cons]
    refine subset_trans ?_ (ih (pacingStep pubOk st d))
    unfold pacingStep
    split
    · exact Finset.subset_insert _ _
    · exact subset_rfl

/-- C8: the Announced-ID Set never shrinks — every pacing step only
inserts, and after any number of cycles the set is a superset of the
starting set. -/
theorem C8_monotone (st : BotState) (cycles : List CycleOracle) :
    (∀ (content : String) (s : Finset String),
        s ⊆ load_posted_deals content s) ∧
    (∀ (pubOk : Deal → Bool) (s : BotState) (deal : Deal),
        s.posted ⊆ (pacingStep pubOk s deal).posted) ∧
    st.posted ⊆ (runCycles st cycles).posted := by
  refine ⟨?_, ?_, ?_⟩
  · intro content s
    exact Finset.subset_union_left
  · intro pubOk s deal
    unfold pacingStep
    split
    · exact Finset.subset_insert _ _
    · exact subset_rfl
  · induction cycles generalizing st with
    | nil => exact subset_rfl
    | cons c cs ih =>
      exact subset_trans (posted_subset_foldl c.pubOk _ st) (ih (runCycle c st))

lemma foldl_pacing_posted (pubOk : Deal → Bool) (l : List Deal) (st : BotState) :
    (l.foldl (pacingStep pubOk) st).posted =
      st.posted ∪ ((l.filter pubOk).map Deal.product_id).toFinset := by
  induction l generalizing st with
  | nil => simp
  | cons d t ih =>
    simp only [List.foldl_cons, List.filter_cons]
    by_cases h : pubOk d
    · rw [ih]
      simp [pacingStep, h, Finset.insert_union, Finset.union_insert]
    · rw [ih]
      simp [pacingStep, h]

lemma runCycle_posted (c : CycleOracle) (st : BotState) :
    (runCycle c st).posted =
      st.posted ∪ (cyclePublished c st.posted).toFinset := by
  unfold runCycle cyclePublished
  exact foldl_pacing_posted c.pubOk _ st

lemma cycleSelected_id_not_posted (c : CycleOracle) (posted : Finset String)
    (hperm : ∀ l, (c.shuffle l).Perm l) :
    ∀ d ∈ cycleSelected c posted, d.product_id ∉ posted := by
  intro d hd
  have hmem : d ∈ newDeals c.allDeals posted := (hperm _).mem_iff.1 hd
  have := (List.mem_filter.1 hmem).2
  simpa using this

lemma cyclePublished_not_posted (c : CycleOracle) (posted : Finset String)
    (hperm : ∀ l, (c.shuffle l).Perm l) :
    ∀ i ∈ cyclePublished c posted, i ∉ posted := by
  intro i hi
  rcases List.mem_map.1 hi with ⟨d, hd, rfl⟩
  exact cycleSelected_id_not_posted c posted hperm d (List.mem_of_mem_filter hd)

lemma cyclePublished_nodup (c : CycleOracle) (posted : Finset String)
    (hperm : ∀ l, (c.shuffle l).Perm l)
    (hnodup : (c.allDeals.map Deal.product_id).Nodup) :
    (cyclePublished c posted).Nodup := by
  have h1 : ((newDeals c.allDeals posted).map Deal.product_id).Nodup :=
    hnodup.sublist ((List.filter_sublist _).map _)
  have h2 : ((cycleSelected c posted).map Deal.product_id).Nodup :=
    (((hperm _).map Deal.product_id).nodup_iff).2 h1
  exact h2.sublist ((List.filter_sublist _).map _)

lemma runPublished_nodup_and_fresh (st : BotState) (cycles : List CycleOracle)
    (hperm : ∀ c ∈ cycles, ∀ l, (c.shuffle l).Perm l)
    (hnodup : ∀ c ∈ cycles, (c.allDeals.map Deal.product_id).Nodup) :
    (runPublished st cycles).Nodup ∧
      ∀ i ∈ runPublished st cycles, i ∉ st.posted := by
  induction cycles generalizing st with
  | nil => simp [runPublished]
  | cons c cs ih =>
    have hp := hperm c (List.mem_cons_self _ _)
    have hn := hnodup c (List.mem_cons_self _ _)
    obtain ⟨ihn, ihf⟩ :=
      ih (runCycle c st) (fun c' hc' => hperm c' (List.mem_cons_of_mem _ hc'))
        (fun c' hc' => hnodup c' (List.mem_cons_of_mem _ hc'))
    have hA : (cyclePublished c st.posted).Nodup :=
      cyclePublished_nodup c st.posted hp hn
    have hB := cyclePublished_not_posted c st.posted hp
    have hD := runCycle_posted c st
    constructor
    · refine List.Nodup.append hA ihn ?_
      intro a ha1 ha2
      have hnot : a ∉ (runCycle c st).posted := ihf a ha2
      rw [hD] at hnot
      exact hnot (Finset.mem_union_right _ (List.mem_toFinset.2 ha1))
    · intro i hi
      rcases List.mem_append.1 hi with h | h
      · exact hB i h
      · have hnot := ihf i h
        rw [hD] at hnot
        exact fun hst => hnot (Finset.mem_union_left _ hst)

/-- C1: over a whole run, deals whose identifier is already in the
Announced-ID Set are never selected for publication in any cycle, and
consequently no identifier is ever successfully published twice (the
published identifiers form a duplicate-free list disjoint from the
initially loaded set). -/
theorem C1_dedup (st : BotState) (cycles : List CycleOracle)
    (hperm : ∀ c ∈ cycles, ∀ l, (c.shuffle l).Perm l)
    (hnodup : ∀ c ∈ cycles, (c.allDeals.map Deal.product_id).Nodup) :
    (runPublished st cycles).Nodup ∧
    (∀ i ∈ runPublished st cycles, i ∉ st.posted) ∧
    (∀ pre c post, cycles = pre ++ c :: post →
       ∀ d ∈ cycleSelected c (runCycles st pre).posted,
         d.product_id ∉ (runCycles st pre).posted) := by
  obtain ⟨h1, h2⟩ := runPublished_nodup_and_fresh st cycles hperm hnodup
  refine ⟨h1, h2, ?_⟩
  intro pre c post hcyc d hd
  have hpc : c ∈ cycles := by
    rw [hcyc]
    exact List.mem_append_right _ (List.mem_cons_self _ _)
  exact cycleSelected_id_not_posted c _ (hperm c hpc) d hd

/-- C1 witness: a concrete one-cycle run publishes each id at most once. -/
theorem C1_dedup_witness : (runPublished emptyState [sampleCycle]).Nodup :=
  (C1_dedup emptyState [sampleCycle]
    (by
      intro c hc l
      simp only [List.mem_singleton] at hc
      subst hc
      exact List.Perm.refl l)
    (by
      intro c hc
      simp only [List.mem_singleton] at hc
      subst hc
      decide)).1

lemma foldl_save_data (ids : List String) (c : String) :
    (ids.foldl save_posted_deal c).data =
      c.data ++ (ids.map (fun id => id.data ++ ['\n'])).flatten := by
  induction ids generalizing c with
  | nil => simp
  | cons id t ih =>
    simp only [List.foldl_cons, List.map_cons, List.flatten_cons]
    rw [ih]
    unfold save_posted_deal
    simp

lemma pyLinesAux_append_newline (xs : List Char) (h : '\n' ∉ xs) :
    ∀ (acc rest : List Char),
      pyLinesAux acc (xs ++ '\n' :: rest) =
        (acc.reverse ++ xs ++ ['\n']) :: pyLinesAux [] rest := by
  induction xs with
  | nil =>
    intro acc rest
    simp [pyLinesAux]
  | cons x t ih =>
    intro acc rest
    have hx : ¬(x = '\n') := fun hc => h (hc ▸ List.mem_cons_self x t)
    have ht : '\n' ∉ t := fun hc => h (List.mem_cons_of_mem _ hc)
    simp only [List.cons_append, pyLinesAux, if_neg hx, List.append_eq]
    rw [ih ht]
    simp

lemma pyLinesAux_flatten (ids : List String)
    (h : ∀ id ∈ ids, '\n' ∉ id.data) :
    pyLinesAux [] ((ids.map (fun id => id.data ++ ['\n'])).flatten) =
      ids.map (fun id => id.data ++ ['\n']) := by
  induction ids with
  | nil => rfl
  | cons id t ih =>
    simp only [List.map_cons, List.flatten_cons, List.append_assoc,
      List.singleton_append]
    rw [pyLinesAux_append_newline id.data (h id (List.mem_cons_self _ _))]
    simp only [List.reverse_nil, List.nil_append]
    rw [ih (fun i hi => h i (List.mem_cons_of_mem _ hi))]

lemma dropWhile_of_pyStrip_fix (l : List Char) (h : pyStrip l = l) :
    l.dropWhile isPyWhitespace = l ∧
      l.reverse.dropWhile isPyWhitespace = l.reverse := by
  have hsub1 : (l.dropWhile isPyWhitespace).Sublist l :=
    (List.dropWhile_suffix _).sublist
  have hsub2 :
      ((l.dropWhile isPyWhitespace).reverse.dropWhile isPyWhitespace).Sublist
        (l.dropWhile isPyWhitespace).reverse :=
    (List.dropWhile_suffix _).sublist
  have hlen : (pyStrip l).length = l.length := by rw [h]
  have hlen2 : (pyStrip l).length =
      ((l.dropWhile isPyWhitespace).reverse.dropWhile isPyWhitespace).length := by
    unfold pyStrip
    exact List.length_reverse _
  have hle1 := hsub1.length_le
  have hle2 := hsub2.length_le
  rw [List.length_reverse] at hle2
  have heq1 : (l.dropWhile isPyWhitespace).length = l.length := by omega
  have hA : l.dropWhile isPyWhitespace = l := hsub1.eq_of_length heq1
  refine ⟨hA, ?_⟩
  have hB : (l.reverse.dropWhile isPyWhitespace).reverse = l := by
    unfold pyStrip at h
    rw [hA] at h
    exact h
  have := congrArg List.reverse hB
  rwa [List.reverse_reverse] at this

lemma pyStrip_append_newline (l : List Char) (h : pyStrip l = l) :
    pyStrip (l ++ ['\n']) = l := by
  obtain ⟨hA, hB⟩ := dropWhile_of_pyStrip_fix l h
  cases l with
  | nil => rfl
  | cons x t =>
    have hx : isPyWhitespace x = false := by
      cases hxv : isPyWhitespace x
      · rfl
      · rw [List.dropWhile_cons, if_pos hxv] at hA
        have hle : (t.dropWhile isPyWhitespace).length ≤ t.length :=
          (List.dropWhile_suffix isPyWhitespace).sublist.length_le
        have hlen := congrArg List.length hA
        simp only [List.length_cons] at hlen
        omega
    unfold pyStrip
    rw [List.cons_append, List.dropWhile_cons, if_neg (by simp [hx])]
    have hrev : (x :: (t ++ ['\n'])).reverse = '\n' :: (x :: t).reverse := by
      simp
    rw [hrev, List.dropWhile_cons, if_pos (by decide)]
    rw [hB, List.reverse_reverse]

lemma load_store (ids : List String)
    (h : ∀ id ∈ ids, '\n' ∉ id.data ∧ pyStrip id.data = id.data) :
    load_posted_deals (ids.foldl save_posted_deal "") ∅ = ids.toFinset := by
  unfold load_posted_deals pyLines
  rw [Finset.empty_union]
  have hdata : (ids.foldl save_posted_deal "").data =
      (ids.map (fun id => id.data ++ ['\n'])).flatten := by
    rw [foldl_save_data ids ""]
    rfl
  rw [hdata, pyLinesAux_flatten ids (fun id hid => (h id hid).1), List.map_map]
  congr 1
  have hfix : ∀ id ∈ ids,
      ((fun line => String.mk (pyStrip line)) ∘
        (fun id => id.data ++ ['\n'])) id = id := by
    intro id hid
    simp only [Function.comp_apply]
    rw [pyStrip_append_newline id.data (h id hid).2]
  rw [List.map_congr_left hfix]
  simp

/-- C6: persisting any finite sequence of identifiers (non-empty, no
newline, no surrounding whitespace) into an initially empty store and
reloading on a fresh run reproduces exactly the persisted identifiers as
a set, independently of persistence order. -/
theorem C6_roundtrip (ids : List String)
    (h : ∀ id ∈ ids, id ≠ "" ∧ '\n' ∉ id.data ∧ pyStrip id.data = id.data) :
    load_posted_deals (ids.foldl save_posted_deal "") ∅ = ids.toFinset ∧
    ∀ ids2 : List String, ids2.Perm ids →
      load_posted_deals (ids2.foldl save_posted_deal "") ∅ = ids.toFinset := by
  refine ⟨load_store ids (fun id hid => (h id hid).2), ?_⟩
  intro ids2 hpermu
  have h2 : ∀ id ∈ ids2, '\n' ∉ id.data ∧ pyStrip id.data = id.data :=
    fun id hid => (h id (hpermu.mem_iff.1 hid)).2
  rw [load_store ids2 h2]
  exact List.toFinset_eq_of_perm _ _ hpermu

/-- C6 witness: the store round-trips a concrete pair of identifiers. -/
theorem C6_roundtrip_witness :
    load_posted_deals (List.foldl save_posted_deal "" ["A1", "B2"]) ∅ =
      (["A1", "B2"] : List String).toFinset :=
  (C6_roundtrip ["A1", "B2"] (by decide)).1

lemma getD_mem_of_lt (l : List String) (n : ℕ) (h : n < l.length) :
    l.getD n "" ∈ l := by
  rw [List.getD_eq_getElem?_getD, List.getElem?_eq_getElem h]
  exact List.getElem_mem h

lemma tryKeysLoop_some {D : Type} (keys : List String) (res : String → Option D)
    (curIdx : ℕ) (hk : 0 < keys.length) :
    ∀ (remaining i : ℕ) (d : D) (j : ℕ),
      tryKeysLoop keys res curIdx i remaining = some (d, j) →
      j < keys.length ∧ res (keys.getD j "") = some d := by
  intro remaining
  induction remaining with
  | zero =>
    intro i d j hstep
    exact absurd hstep (by simp [tryKeysLoop])
  | succ n ih =>
    intro i d j hstep
    simp only [tryKeysLoop] at hstep
    rcases hres : res (keys.getD ((curIdx + i) % keys.length) "") with _ | data
    · rw [hres] at hstep
      exact ih _ _ _ hstep
    · rw [hres] at hstep
      simp only [Option.some.injEq, Prod.mk.injEq] at hstep
      obtain ⟨hd, hj⟩ := hstep
      subst hd
      subst hj
      exact ⟨Nat.mod_lt _ hk, hres⟩

lemma length_pos_of_not_isEmpty (keys : List String)
    (hk : ¬keys.isEmpty = true) : 0 < keys.length := by
  cases keys with
  | nil => simp at hk
  | cons a t => simp

lemma make_api_request_some_inv {D : Type} (keys : List String) (curIdx : ℕ)
    (res : String → Option D) (d : D) (j : ℕ)
    (hsome : make_api_request keys curIdx res = (some d, j)) :
    j < keys.length ∧ res (keys.getD j "") = some d := by
  unfold make_api_request at hsome
  by_cases hk : keys.isEmpty
  · rw [if_pos hk] at hsome
    simp at hsome
  · rw [if_neg hk] at hsome
    have hk' : 0 < keys.length := length_pos_of_not_isEmpty keys hk
    rcases htry : tryKeysLoop keys res curIdx 0 keys.length with _ | p
    · rw [htry] at hsome
      simp at hsome
    · rw [htry] at hsome
      obtain ⟨data, ki⟩ := p
      simp only [Prod.mk.injEq, Option.some.injEq] at hsome
      obtain ⟨hd, hj⟩ := hsome
      subst hd
      subst hj
      exact tryKeysLoop_some keys res curIdx hk' _ _ _ _ htry

lemma tryKeysLoopFull_agrees {D : Type} (keys : List String)
    (res : String → Option D) (curIdx : ℕ) :
    ∀ remaining i,
      tryKeysLoopFull keys
          (fun k => match res k with
            | some data => KeyOutcome.ok data
            | none => KeyOutcome.httpFail)
          curIdx i remaining =
        match tryKeysLoop keys res curIdx i remaining with
        | some (data, key_index) => (some data, key_index)
        | none => (none, curIdx) := by
  intro remaining
  induction remaining with
  | zero => intro i; rfl
  | succ n ih =>
    intro i
    simp only [tryKeysLoopFull, tryKeysLoop]
    rcases hres : res (keys.getD ((curIdx + i) % keys.length) "") with _ | data
    · exact ih (i + 1)
    · rfl

/-- On oracles with no post-assignment failure mode, the refined model
coincides with the `Option`-oracle model used above. -/
lemma make_api_request_eq_full {D : Type} (keys : List String) (curIdx : ℕ)
    (res : String → Option D) :
    make_api_request_full keys curIdx
        (fun k => match res k with
          | some data => KeyOutcome.ok data
          | none => KeyOutcome.httpFail) =
      make_api_request keys curIdx res := by
  unfold make_api_request_full make_api_request
  by_cases hk : keys.isEmpty
  · rw [if_pos hk, if_pos hk]
  · rw [if_neg hk, if_neg hk]
    exact tryKeysLoopFull_agrees keys res curIdx keys.length 0

lemma tryKeysLoopFull_some {D : Type} (keys : List String)
    (res : String → KeyOutcome D) (hk : 0 < keys.length) :
    ∀ (remaining cur i : ℕ) (d : D) (j : ℕ),
      tryKeysLoopFull keys res cur i remaining = (some d, j) →
      j < keys.length ∧ res (keys.getD j "") = KeyOutcome.ok d := by
  intro remaining
  induction remaining with
  | zero =>
    intro cur i d j hstep
    simp [tryKeysLoopFull] at hstep
  | succ n ih =>
    intro cur i d j hstep
    simp only [tryKeysLoopFull] at hstep
    rcases hres : res (keys.getD ((cur + i) % keys.length) "") with _ | _ | data
    · rw [hres] at hstep
      exact ih _ _ _ _ hstep
    · rw [hres] at hstep
      exact ih _ _ _ _ hstep
    · rw [hres] at hstep
      simp only [Prod.mk.injEq, Option.some.injEq] at hstep
      obtain ⟨hd, hj⟩ := hstep
      subst hd
      subst hj
      exact ⟨Nat.mod_lt _ hk, hres⟩

lemma tryKeysLoopFull_httpFail {D : Type} (keys : List String)
    (res : String → KeyOutcome D) (hk : 0 < keys.length)
    (hall : ∀ key ∈ keys, res key = KeyOutcome.httpFail) :
    ∀ remaining cur i, tryKeysLoopFull keys res cur i remaining = (none, cur) := by
  intro remaining
  induction remaining with
  | zero => intro cur i; rfl
  | succ n ih =>
    intro cur i
    simp only [tryKeysLoopFull]
    rw [hall _ (getD_mem_of_lt keys _ (Nat.mod_lt _ hk))]
    exact ih cur (i + 1)

lemma tryKeysLoopFull_no_ok {D : Type} (keys : List String)
    (res : String → KeyOutcome D) (hk : 0 < keys.length)
    (hall : ∀ key ∈ keys, ∀ d, res key ≠ KeyOutcome.ok d) :
    ∀ remaining cur i, (tryKeysLoopFull keys res cur i remaining).1 = none := by
  intro remaining
  induction remaining with
  | zero => intro cur i; rfl
  | succ n ih =>
    intro cur i
    simp only [tryKeysLoopFull]
    rcases hres : res (keys.getD ((cur + i) % keys.length) "") with _ | _ | data
    · exact ih cur (i + 1)
    · exact ih _ (i + 1)
    · exact absurd hres (hall _ (getD_mem_of_lt keys _ (Nat.mod_lt _ hk)) data)

/-- C10 counterexample: with keys `["k1", "k2"]`, rotation index 0,
`"k1"` failing before the index assignment and `"k2"` receiving a 2xx
response whose body fails JSON decoding, every credential fails — yet
the call leaves the rotation index at 1, not at the original 0, because
`current_api_key_index = key_index` runs before `response.json()`
raises. -/
theorem C10_counterexample :
    mixedFailRes "k1" = KeyOutcome.httpFail ∧
    mixedFailRes "k2" = KeyOutcome.jsonFail ∧
    make_api_request_full ["k1", "k2"] 0 mixedFailRes = (none, 1) ∧
    (make_api_request_full ["k1", "k2"] 0 mixedFailRes).2 ≠ 0 := by
  refine ⟨rfl, rfl, by decide, by decide⟩

/-- C10 (amended): after every successful `make_api_request` call the
rotation index equals the index of the credential that succeeded; with
no credentials configured, or when every attempt fails before the index
assignment (network or HTTP-status errors), the index is unchanged; and
whenever no attempt fully succeeds the call returns no data — but an
attempt whose 2xx body fails JSON decoding mutates the index before its
exception is caught, so an all-fail call need not leave the index
unchanged. -/
theorem C10_rotation_index {D : Type} (keys : List String) (curIdx : ℕ)
    (res : String → KeyOutcome D) :
    (∀ (d : D) (j : ℕ),
        make_api_request_full keys curIdx res = (some d, j) →
        j < keys.length ∧ res (keys.getD j "") = KeyOutcome.ok d) ∧
    ((∀ key ∈ keys, res key = KeyOutcome.httpFail) →
        make_api_request_full keys curIdx res = (none, curIdx)) ∧
    (keys = [] → make_api_request_full keys curIdx res = (none, curIdx)) ∧
    ((∀ key ∈ keys, ∀ d, res key ≠ KeyOutcome.ok d) →
        (make_api_request_full keys curIdx res).1 = none) := by
  refine ⟨?_, ?_, ?_, ?_⟩
  · intro d j hsome
    unfold make_api_request_full at hsome
    by_cases hk : keys.isEmpty
    · rw [if_pos hk] at hsome
      simp at hsome
    · rw [if_neg hk] at hsome
      exact tryKeysLoopFull_some keys res (length_pos_of_not_isEmpty keys hk)
        _ _ _ _ _ hsome
  · intro hall
    unfold make_api_request_full
    by_cases hk : keys.isEmpty
    · rw [if_pos hk]
    · rw [if_neg hk]
      exact tryKeysLoopFull_httpFail keys res
        (length_pos_of_not_isEmpty keys hk) hall _ _ _
  · intro h
    subst h
    rfl
  · intro hall
    unfold make_api_request_full
    by_cases hk : keys.isEmpty
    · rw [if_pos hk]
    · rw [if_neg hk]
      exact tryKeysLoopFull_no_ok keys res
        (length_pos_of_not_isEmpty keys hk) hall _ _ _

/-- C10 witness: with keys `["k1", "k2"]`, `"k1"` failing before the
assignment and `"k2"` succeeding, the call succeeds and the returned
rotation index 1 points at `"k2"`. -/
theorem C10_rotation_index_witness :
    1 < (["k1", "k2"] : List String).length ∧
      okRes ((["k1", "k2"] : List String).getD 1 "") = KeyOutcome.ok 7 :=
  (C10_rotation_index ["k1", "k2"] 0 okRes).1 7 1 rfl

end Bot
